import Mathlib

/-!
Shallow embedding of the ExMail browser extension core
(src/api/utils.js, src/api/gmail.js, and the background service worker)
together with proofs about the embedded operations.

JavaScript strings are modelled as Lean strings (sequences of Unicode scalar
values), byte values as natural numbers below 256, absent (undefined) object
fields as `Option`, thrown exceptions as `Option`/`Except` failures, and the
all-or-nothing join of concurrently issued promises as an explicit
`promiseAll` over a list of `Except` results.
-/

namespace ExMail

/-! ## Base64 / base64url codec (src/api/utils.js, base64Encode and base64Decode)

`btoa` maps 6-bit groups through the standard base64 alphabet; `base64Encode`
then rewrites `+` to `-`, `/` to `_` and strips the trailing `=` padding.  We
model the composition directly: the sextet stream is produced without padding
characters (generating `=` padding and then stripping it with the trailing
`=+$` replacement yields the same string).  `atob` is modelled by
forgiving-base64: after the decoder re-pads the input to a multiple of four,
`atob` removes up to two trailing `=`, and then fails on any character outside
the standard alphabet or on a leftover length of 1 modulo 4.  (The
ASCII-whitespace stripping step of forgiving-base64 is not modelled; no input
considered here contains whitespace.) -/

/-- The standard base64 alphabet used by btoa and atob. -/
def stdAlphabet : List Char :=
  String.data "ABCDEFGHIJKLMNOPQRSTUVWXYZabcdefghijklmnopqrstuvwxyz0123456789+/"

/-- Character for a 6-bit group under the standard alphabet. -/
def stdB64Char (n : Nat) : Char := stdAlphabet.getD n 'A'

/-- The url-safe rewriting applied by base64Encode: plus to minus, slash to underscore. -/
def urlOfStd (c : Char) : Char :=
  if c = '+' then '-' else if c = '/' then '_' else c

/-- The inverse rewriting applied by base64Decode before calling atob. -/
def stdOfUrl (c : Char) : Char :=
  if c = '-' then '+' else if c = '_' then '/' else c

/-- Value of a character under the standard base64 alphabet, none for
characters atob rejects (including the padding character itself). -/
def b64SextOfChar (c : Char) : Option Nat :=
  let n := c.toNat
  if 65 ≤ n ∧ n ≤ 90 then some (n - 65)
  else if 97 ≤ n ∧ n ≤ 122 then some (n - 97 + 26)
  else if 48 ≤ n ∧ n ≤ 57 then some (n - 48 + 52)
  else if c = '+' then some 62
  else if c = '/' then some 63
  else none

/-- Byte stream to 6-bit-group stream, as produced by btoa (padding omitted;
see the module comment). -/
def b64EncSext : List Nat → List Nat
  | [] => []
  | [a] => [a / 4, a % 4 * 16]
  | [a, b] => [a / 4, a % 4 * 16 + b / 16, b % 16 * 4]
  | a :: b :: c :: rest =>
      a / 4 :: (a % 4 * 16 + b / 16) :: (b % 16 * 4 + c / 64) :: c % 64 :: b64EncSext rest

/-- 6-bit-group stream back to bytes, as consumed by atob after padding
removal: full four-group chunks give three bytes, a trailing chunk of two or
three groups gives one or two bytes, a trailing chunk of one group is an
error. -/
def b64DecSext : List Nat → Option (List Nat)
  | [] => some []
  | [_] => none
  | [a, b] => some [a * 4 + b / 16]
  | [a, b, c] => some [a * 4 + b / 16, b % 16 * 16 + c / 4]
  | a :: b :: c :: d :: rest =>
      (b64DecSext rest).map
        (fun t => (a * 4 + b / 16) :: (b % 16 * 16 + c / 4) :: (c % 4 * 64 + d) :: t)

/-- Map every character of an atob input to its 6-bit value, failing on the
first character outside the standard alphabet. -/
def decodeSexts : List Char → Option (List Nat)
  | [] => some []
  | c :: cs =>
      match b64SextOfChar c with
      | none => none
      | some x => (decodeSexts cs).map (fun t => x :: t)

/-- Removal of up to two trailing padding characters, as done by
forgiving-base64 on an input whose length is a multiple of four. -/
def stripPad (p : List Char) : List Char :=
  match p.reverse with
  | c1 :: c2 :: r =>
      if c1 = '=' then (if c2 = '=' then r.reverse else (c2 :: r).reverse) else p
  | [c1] => if c1 = '=' then [] else p
  | [] => p

/-! ### UTF-8 layer (TextEncoder / TextDecoder) -/

/-- TextEncoder on a single Unicode scalar value: its UTF-8 bytes. -/
def utf8EncChar (c : Char) : List Nat :=
  let n := c.toNat
  if n < 128 then [n]
  else if n < 2048 then [192 + n / 64, 128 + n % 64]
  else if n < 65536 then [224 + n / 4096, 128 + n / 64 % 64, 128 + n % 64]
  else [240 + n / 262144, 128 + n / 4096 % 64, 128 + n / 64 % 64, 128 + n % 64]

/-- TextEncoder on a whole string (as its character list). -/
def utf8Encode (s : List Char) : List Nat := (s.map utf8EncChar).flatten

/-- The replacement character U+FFFD emitted by TextDecoder for invalid input. -/
def replacementChar : Char := Char.ofNat 65533

/-- State of the WHATWG streaming UTF-8 decoder underlying TextDecoder:
the partially accumulated code point, the number of continuation bytes still
needed, and the admissible range for the next byte. -/
structure Utf8State where
  codepoint : Nat
  needed : Nat
  lower : Nat
  upper : Nat
deriving DecidableEq

/-- Initial (and between-characters) state of the streaming decoder. -/
def utf8Init : Utf8State := ⟨0, 0, 128, 191⟩

/-- Handling of a byte in the between-characters state: ASCII is emitted
directly, lead bytes set up the expected continuation count and the bounds
that exclude overlong and surrogate encodings, anything else is an error
emitting the replacement character. -/
def utf8Lead (b : Nat) : Utf8State × List Char :=
  if b < 128 then (utf8Init, [Char.ofNat b])
  else if b < 194 then (utf8Init, [replacementChar])
  else if b < 224 then (⟨b % 32, 1, 128, 191⟩, [])
  else if b < 240 then
    (⟨b % 16, 2, if b = 224 then 160 else 128, if b = 237 then 159 else 191⟩, [])
  else if b < 245 then
    (⟨b % 8, 3, if b = 240 then 144 else 128, if b = 244 then 143 else 191⟩, [])
  else (utf8Init, [replacementChar])

/-- One step of the streaming decoder on one byte. -/
def utf8Step (st : Utf8State) (b : Nat) : Utf8State × List Char :=
  if st.needed = 0 then utf8Lead b
  else if st.lower ≤ b ∧ b ≤ st.upper then
    let cp := st.codepoint * 64 + b % 64
    if st.needed = 1 then (utf8Init, [Char.ofNat cp])
    else ({ codepoint := cp, needed := st.needed - 1, lower := 128, upper := 191 }, [])
  else
    let (st2, out2) := utf8Lead b
    (st2, replacementChar :: out2)

/-- Run of the streaming decoder over a byte list; a truncated trailing
sequence produces one replacement character, as in TextDecoder. -/
def utf8Run (st : Utf8State) : List Nat → List Char
  | [] => if st.needed = 0 then [] else [replacementChar]
  | b :: rest =>
      let p := utf8Step st b
      p.2 ++ utf8Run p.1 rest

/-- TextDecoder in its default non-fatal mode: well-formed sequences decode to
their scalar value, malformed input produces replacement characters instead of
an error. -/
def utf8Decode (bytes : List Nat) : List Char := utf8Run utf8Init bytes

/-! ### The two exported string codecs -/

/-- base64Encode from src/api/utils.js: UTF-8 encode, btoa, url-safe
substitution, padding stripped. -/
def base64Encode (s : String) : String :=
  String.mk (((b64EncSext (utf8Encode s.data)).map stdB64Char).map urlOfStd)

/-- base64Decode from src/api/utils.js: url-safe substitution reversed, input
re-padded with = to a multiple of four, then atob (forgiving-base64) and
TextDecoder.  A none result models the InvalidCharacterError thrown by atob on
malformed input. -/
def base64Decode (s : String) : Option String :=
  let u := s.data.map stdOfUrl
  let p := u ++ List.replicate ((4 - u.length % 4) % 4) '='
  let q := stripPad p
  match decodeSexts q with
  | none => none
  | some sexts => (b64DecSext sexts).map (fun bytes => String.mk (utf8Decode bytes))

/-! ### Round-trip facts for the codec -/

/-- Validity range of a Unicode scalar value held in a Char. -/
theorem char_toNat_valid (c : Char) :
    c.toNat < 55296 ∨ (57343 < c.toNat ∧ c.toNat < 1114112) := by
  have h := c.valid
  simp only [UInt32.isValidChar, Nat.isValidChar] at h
  exact h

/-- Every byte produced by the UTF-8 encoder of a single character is below 256. -/
theorem utf8EncChar_lt (c : Char) : ∀ b ∈ utf8EncChar c, b < 256 := by
  have hval := char_toNat_valid c
  intro b hb
  simp only [utf8EncChar] at hb
  split_ifs at hb <;> simp only [List.mem_cons, List.not_mem_nil, or_false] at hb <;>
    rcases hb with rfl | rfl | rfl | rfl <;> omega

/-- Every byte produced by the UTF-8 encoder is below 256. -/
theorem utf8Encode_lt (cs : List Char) : ∀ b ∈ utf8Encode cs, b < 256 := by
  intro b hb
  unfold utf8Encode at hb
  rw [List.mem_flatten] at hb
  obtain ⟨s, hs, hbs⟩ := hb
  rw [List.mem_map] at hs
  obtain ⟨c, _, rfl⟩ := hs
  exact utf8EncChar_lt c b hbs

theorem utf8Run_cons (st : Utf8State) (b : Nat) (l : List Nat) :
    utf8Run st (b :: l) = (utf8Step st b).2 ++ utf8Run (utf8Step st b).1 l := rfl

theorem utf8Step_start (b : Nat) : utf8Step utf8Init b = utf8Lead b := by
  simp [utf8Step, utf8Init]

theorem utf8Lead_ascii (b : Nat) (h : b < 128) : utf8Lead b = (utf8Init, [Char.ofNat b]) := by
  unfold utf8Lead
  rw [if_pos h]

theorem utf8Lead_two (b : Nat) (h1 : 194 ≤ b) (h2 : b < 224) :
    utf8Lead b = (⟨b % 32, 1, 128, 191⟩, []) := by
  unfold utf8Lead
  rw [if_neg (by omega), if_neg (by omega), if_pos h2]

theorem utf8Lead_three (b : Nat) (h1 : 224 ≤ b) (h2 : b < 240) :
    utf8Lead b =
      (⟨b % 16, 2, if b = 224 then 160 else 128, if b = 237 then 159 else 191⟩, []) := by
  unfold utf8Lead
  rw [if_neg (by omega), if_neg (by omega), if_neg (by omega), if_pos h2]

theorem utf8Lead_four (b : Nat) (h1 : 240 ≤ b) (h2 : b < 245) :
    utf8Lead b =
      (⟨b % 8, 3, if b = 240 then 144 else 128, if b = 244 then 143 else 191⟩, []) := by
  unfold utf8Lead
  rw [if_neg (by omega), if_neg (by omega), if_neg (by omega), if_neg (by omega), if_pos h2]

theorem utf8Step_cont_last (cp lo hi b : Nat) (h1 : lo ≤ b) (h2 : b ≤ hi) :
    utf8Step ⟨cp, 1, lo, hi⟩ b = (utf8Init, [Char.ofNat (cp * 64 + b % 64)]) := by
  unfold utf8Step
  dsimp only
  rw [if_neg (by omega), if_pos ⟨h1, h2⟩, if_pos rfl]

theorem utf8Step_cont_more (cp k lo hi b : Nat) (hk : 2 ≤ k) (h1 : lo ≤ b) (h2 : b ≤ hi) :
    utf8Step ⟨cp, k, lo, hi⟩ b = (⟨cp * 64 + b % 64, k - 1, 128, 191⟩, []) := by
  unfold utf8Step
  dsimp only
  rw [if_neg (by omega), if_pos ⟨h1, h2⟩, if_neg (by omega)]

/-- Decoding consumes one encoded character and emits exactly it, returning to
the initial decoder state. -/
theorem utf8Run_encChar (c : Char) (rest : List Nat) :
    utf8Run utf8Init (utf8EncChar c ++ rest) = c :: utf8Run utf8Init rest := by
  have hval := char_toNat_valid c
  by_cases h1 : c.toNat < 128
  · have henc : utf8EncChar c = [c.toNat] := by
      simp only [utf8EncChar]
      rw [if_pos h1]
    rw [henc]
    simp only [List.cons_append, List.nil_append, utf8Run_cons, utf8Step_start,
      utf8Lead_ascii _ h1, Char.ofNat_toNat]
  by_cases h2 : c.toNat < 2048
  · have henc : utf8EncChar c = [192 + c.toNat / 64, 128 + c.toNat % 64] := by
      simp only [utf8EncChar]
      rw [if_neg h1, if_pos h2]
    rw [henc]
    simp only [List.cons_append, List.nil_append]
    rw [utf8Run_cons, utf8Step_start, utf8Lead_two _ (by omega) (by omega)]
    dsimp only
    rw [utf8Run_cons, utf8Step_cont_last _ _ _ _ (by omega) (by omega)]
    dsimp only
    have he : (192 + c.toNat / 64) % 32 * 64 + (128 + c.toNat % 64) % 64 = c.toNat := by omega
    rw [he, Char.ofNat_toNat]
    simp
  by_cases h3 : c.toNat < 65536
  · have henc :
        utf8EncChar c = [224 + c.toNat / 4096, 128 + c.toNat / 64 % 64, 128 + c.toNat % 64] := by
      simp only [utf8EncChar]
      rw [if_neg h1, if_neg h2, if_pos h3]
    rw [henc]
    simp only [List.cons_append, List.nil_append]
    rw [utf8Run_cons, utf8Step_start, utf8Lead_three _ (by omega) (by omega)]
    dsimp only
    rw [utf8Run_cons,
      utf8Step_cont_more _ _ _ _ _ (by omega) (by split_ifs <;> omega) (by split_ifs <;> omega)]
    dsimp only
    rw [utf8Run_cons, utf8Step_cont_last _ _ _ _ (by omega) (by omega)]
    dsimp only
    have he :
        ((224 + c.toNat / 4096) % 16 * 64 + (128 + c.toNat / 64 % 64) % 64) * 64 +
          (128 + c.toNat % 64) % 64 = c.toNat := by omega
    rw [he, Char.ofNat_toNat]
    simp
  · have henc :
        utf8EncChar c = [240 + c.toNat / 262144, 128 + c.toNat / 4096 % 64,
          128 + c.toNat / 64 % 64, 128 + c.toNat % 64] := by
      simp only [utf8EncChar]
      rw [if_neg h1, if_neg h2, if_neg h3]
    rw [henc]
    simp only [List.cons_append, List.nil_append]
    rw [utf8Run_cons, utf8Step_start, utf8Lead_four _ (by omega) (by omega)]
    dsimp only
    rw [utf8Run_cons,
      utf8Step_cont_more _ _ _ _ _ (by omega) (by split_ifs <;> omega) (by split_ifs <;> omega)]
    dsimp only
    rw [utf8Run_cons, utf8Step_cont_more _ _ _ _ _ (by omega) (by omega) (by omega)]
    dsimp only
    rw [utf8Run_cons, utf8Step_cont_last _ _ _ _ (by omega) (by omega)]
    dsimp only
    have he :
        (((240 + c.toNat / 262144) % 8 * 64 + (128 + c.toNat / 4096 % 64) % 64) * 64 +
            (128 + c.toNat / 64 % 64) % 64) * 64 + (128 + c.toNat % 64) % 64 = c.toNat := by
      omega
    rw [he, Char.ofNat_toNat]
    simp

/-- TextDecoder inverts TextEncoder on every string. -/
theorem utf8_roundtrip (cs : List Char) : utf8Decode (utf8Encode cs) = cs := by
  unfold utf8Decode
  induction cs with
  | nil => rfl
  | cons c t ih =>
      have h : utf8Encode (c :: t) = utf8EncChar c ++ utf8Encode t := by
        simp [utf8Encode]
      rw [h, utf8Run_encChar, ih]

/-- The sextet stream of a byte list with values below 256 stays below 64. -/
theorem b64EncSext_lt :
    ∀ l : List Nat, (∀ b ∈ l, b < 256) → ∀ x ∈ b64EncSext l, x < 64
  | [], _ => by simp [b64EncSext]
  | [a], h => by
      have ha : a < 256 := h a (by simp)
      intro x hx
      simp only [b64EncSext, List.mem_cons, List.not_mem_nil, or_false] at hx
      rcases hx with rfl | rfl <;> omega
  | [a, b], h => by
      have ha : a < 256 := h a (by simp)
      have hb : b < 256 := h b (by simp)
      intro x hx
      simp only [b64EncSext, List.mem_cons, List.not_mem_nil, or_false] at hx
      rcases hx with rfl | rfl | rfl <;> omega
  | a :: b :: c :: rest, h => by
      have ha : a < 256 := h a (by simp)
      have hb : b < 256 := h b (by simp)
      have hc : c < 256 := h c (by simp)
      have ih := b64EncSext_lt rest (fun y hy => h y (by simp [hy]))
      intro x hx
      simp only [b64EncSext, List.mem_cons] at hx
      rcases hx with rfl | rfl | rfl | rfl | hx
      · omega
      · omega
      · omega
      · omega
      · exact ih x hx

/-- Encoding a byte list with values below 256 to sextets and decoding back
returns the bytes. -/
theorem b64_sext_roundtrip :
    ∀ l : List Nat, (∀ b ∈ l, b < 256) → b64DecSext (b64EncSext l) = some l
  | [], _ => rfl
  | [a], h => by
      have ha : a < 256 := h a (by simp)
      simp only [b64EncSext, b64DecSext]
      have e : a / 4 * 4 + a % 4 * 16 / 16 = a := by omega
      rw [e]
  | [a, b], h => by
      have ha : a < 256 := h a (by simp)
      have hb : b < 256 := h b (by simp)
      simp only [b64EncSext, b64DecSext]
      have e1 : a / 4 * 4 + (a % 4 * 16 + b / 16) / 16 = a := by omega
      have e2 : (a % 4 * 16 + b / 16) % 16 * 16 + b % 16 * 4 / 4 = b := by omega
      rw [e1, e2]
  | a :: b :: c :: rest, h => by
      have ha : a < 256 := h a (by simp)
      have hb : b < 256 := h b (by simp)
      have hc : c < 256 := h c (by simp)
      have ih := b64_sext_roundtrip rest (fun y hy => h y (by simp [hy]))
      simp only [b64EncSext, b64DecSext]
      rw [ih]
      simp only [Option.map]
      have e1 : a / 4 * 4 + (a % 4 * 16 + b / 16) / 16 = a := by omega
      have e2 : (a % 4 * 16 + b / 16) % 16 * 16 + (b % 16 * 4 + c / 64) / 4 = b := by omega
      have e3 : (b % 16 * 4 + c / 64) % 4 * 64 + c % 64 = c := by omega
      rw [e1, e2, e3]

/-- The sextet stream never has length 1 modulo 4. -/
theorem b64EncSext_len_mod : ∀ l : List Nat, (b64EncSext l).length % 4 ≠ 1
  | [] => by simp [b64EncSext]
  | [a] => by simp [b64EncSext]
  | [a, b] => by simp [b64EncSext]
  | a :: b :: c :: rest => by
      have ih := b64EncSext_len_mod rest
      simp only [b64EncSext, List.length_cons]
      omega

/-- On the 64 alphabet values, the url-safe substitution round-trips, atob
recovers the sextet, and the character is never the padding character. -/
theorem stdB64Char_props :
    ∀ n, n < 64 → stdOfUrl (urlOfStd (stdB64Char n)) = stdB64Char n ∧
      b64SextOfChar (stdB64Char n) = some n ∧ stdB64Char n ≠ '=' := by decide

/-- atob on the alphabet image of a sextet stream recovers the stream. -/
theorem decodeSexts_enc (sx : List Nat) (h : ∀ x ∈ sx, x < 64) :
    decodeSexts (sx.map stdB64Char) = some sx := by
  induction sx with
  | nil => rfl
  | cons x t ih =>
      have hx := (stdB64Char_props x (h x (by simp))).2.1
      simp only [List.map_cons, decodeSexts, hx]
      rw [ih (fun y hy => h y (by simp [hy]))]
      rfl

/-- Padding removal is the identity on strings without the padding character. -/
theorem stripPad_of_no_pad (u : List Char) (hu : ∀ c ∈ u, c ≠ '=') : stripPad u = u := by
  unfold stripPad
  cases hrev : u.reverse with
  | nil => rfl
  | cons c1 t =>
      have hc1 : c1 ∈ u := by
        rw [← List.mem_reverse, hrev]
        simp
      cases t with
      | nil =>
          dsimp only
          rw [if_neg (hu c1 hc1)]
      | cons c2 r =>
          dsimp only
          rw [if_neg (hu c1 hc1)]

/-- Padding removal drops exactly a double padding suffix. -/
theorem stripPad_append_two (u : List Char) : stripPad (u ++ ['=', '=']) = u := by
  have h : (u ++ ['=', '=']).reverse = '=' :: '=' :: u.reverse := by simp
  unfold stripPad
  rw [h]
  simp

/-- Padding removal drops exactly a single padding suffix when the base part
is nonempty and padding free. -/
theorem stripPad_append_one (u : List Char) (hu : ∀ c ∈ u, c ≠ '=') (hne : u ≠ []) :
    stripPad (u ++ ['=']) = u := by
  cases hrev : u.reverse with
  | nil =>
      rw [List.reverse_eq_nil_iff] at hrev
      exact absurd hrev hne
  | cons c0 t =>
      have hc0 : c0 ∈ u := by
        rw [← List.mem_reverse, hrev]
        simp
      have h : (u ++ ['=']).reverse = '=' :: c0 :: t := by simp [hrev]
      unfold stripPad
      rw [h]
      dsimp only
      rw [if_pos rfl, if_neg (hu c0 hc0)]
      rw [← hrev, List.reverse_reverse]

/-- C6: for every string s, including the empty string and strings with
Unicode beyond ASCII, base64url-decoding the base64url-encoding of s yields
exactly s. -/
theorem base64_decode_encode (s : String) : base64Decode (base64Encode s) = some s := by
  obtain ⟨cs⟩ := s
  have hbytes := utf8Encode_lt cs
  have hsx := b64EncSext_lt (utf8Encode cs) hbytes
  have hlen := b64EncSext_len_mod (utf8Encode cs)
  have hchain :
      ((((b64EncSext (utf8Encode cs)).map stdB64Char).map urlOfStd).map stdOfUrl) =
        (b64EncSext (utf8Encode cs)).map stdB64Char := by
    rw [List.map_map, List.map_map]
    apply List.map_congr_left
    intro x hx
    exact (stdB64Char_props x (hsx x hx)).1
  have hnopad : ∀ c ∈ (b64EncSext (utf8Encode cs)).map stdB64Char, c ≠ '=' := by
    intro c hc
    rw [List.mem_map] at hc
    obtain ⟨x, hx, rfl⟩ := hc
    exact (stdB64Char_props x (hsx x hx)).2.2
  show base64Decode
      (String.mk (((b64EncSext (utf8Encode cs)).map stdB64Char).map urlOfStd)) =
    some (String.mk cs)
  unfold base64Decode
  dsimp only
  rw [hchain]
  have hulen :
      ((b64EncSext (utf8Encode cs)).map stdB64Char).length = (b64EncSext (utf8Encode cs)).length :=
    List.length_map _ _
  have hstrip :
      stripPad ((b64EncSext (utf8Encode cs)).map stdB64Char ++
          List.replicate
            ((4 - ((b64EncSext (utf8Encode cs)).map stdB64Char).length % 4) % 4) '=') =
        (b64EncSext (utf8Encode cs)).map stdB64Char := by
    have h4 : (b64EncSext (utf8Encode cs)).length % 4 = 0 ∨
        (b64EncSext (utf8Encode cs)).length % 4 = 2 ∨
        (b64EncSext (utf8Encode cs)).length % 4 = 3 := by omega
    rcases h4 with h4 | h4 | h4
    · have hc : (4 - ((b64EncSext (utf8Encode cs)).map stdB64Char).length % 4) % 4 = 0 := by
        rw [hulen]
        omega
      rw [hc, List.replicate_zero, List.append_nil, stripPad_of_no_pad _ hnopad]
    · have hc : (4 - ((b64EncSext (utf8Encode cs)).map stdB64Char).length % 4) % 4 = 2 := by
        rw [hulen]
        omega
      rw [hc]
      exact stripPad_append_two _
    · have hc : (4 - ((b64EncSext (utf8Encode cs)).map stdB64Char).length % 4) % 4 = 1 := by
        rw [hulen]
        omega
      rw [hc]
      apply stripPad_append_one _ hnopad
      intro hnil
      rw [hnil] at hulen
      simp at hulen
      omega
  rw [hstrip, decodeSexts_enc _ hsx]
  dsimp only
  rw [b64_sext_roundtrip (utf8Encode cs) hbytes]
  simp only [Option.map]
  rw [show utf8Decode (utf8Encode cs) = cs from utf8_roundtrip cs]

example : base64Encode "a < b" = "YSA8IGI" := by decide
example : base64Decode "YSA8IGI" = some "a < b" := by decide
example : base64Decode "!!" = none := by decide
example : base64Decode (base64Encode "héllo✓") = some "héllo✓" := by decide

/-! ## Header parsing (src/api/utils.js, parseEmailHeaders)

A Gmail payload carries an optional array of raw name/value headers; the
parser builds a plain object keyed by lower-cased names.  Property assignment
on a JavaScript object is modelled by an association list in insertion order
in which assigning to an existing key overwrites its value in place. -/

/-- One raw header of a Gmail API payload. -/
structure RawHeader where
  name : String
  value : String
deriving DecidableEq

/-- The fixed allow-list of header names from parseEmailHeaders.  Membership
is tested with includes, which compares strings exactly (case-sensitively). -/
def headerNames : List String :=
  ["From", "To", "Subject", "Date", "Message-ID", "References", "In-Reply-To"]

/-- JavaScript object property assignment on an association list: overwrite
the value of an existing key in place, else append the new pair. -/
def objSet (m : List (String × String)) (k v : String) : List (String × String) :=
  if m.any (fun p => p.1 = k) then
    m.map (fun p => if p.1 = k then (k, v) else p)
  else m ++ [(k, v)]

/-- toLowerCase as applied to header names, modelled character-wise (the
names it is applied to are the ASCII allow-list names). -/
def jsToLower (s : String) : String := String.mk (s.data.map Char.toLower)

/-- Loop body of parseEmailHeaders: keep a header whose name is in the
allow-list, storing its value under the lower-cased name. -/
def headerStep (acc : List (String × String)) (h : RawHeader) : List (String × String) :=
  if h.name ∈ headerNames then objSet acc (jsToLower h.name) h.value else acc

/-- parseEmailHeaders from src/api/utils.js: walk payload.headers (absent
modelled as none), keeping only allow-listed headers. -/
def parseEmailHeaders (headers : Option (List RawHeader)) : List (String × String) :=
  match headers with
  | none => []
  | some hs => hs.foldl headerStep []

example : parseEmailHeaders (some [⟨"From", "a@b.c"⟩, ⟨"X-Spam", "yes"⟩]) =
    [("from", "a@b.c")] := by decide
example : parseEmailHeaders (some [⟨"FROM", "a@b.c"⟩]) = [] := by decide

/-- Membership in an object after an assignment comes from the assignment or
from the object before it. -/
theorem mem_objSet (m : List (String × String)) (k v : String) (p : String × String)
    (h : p ∈ objSet m k v) : p = (k, v) ∨ p ∈ m := by
  unfold objSet at h
  split_ifs at h with hany
  · rw [List.mem_map] at h
    obtain ⟨q, hq, hqe⟩ := h
    by_cases hk : q.1 = k
    · rw [if_pos hk] at hqe
      exact Or.inl hqe.symm
    · rw [if_neg hk] at hqe
      exact Or.inr (hqe ▸ hq)
  · rw [List.mem_append] at h
    rcases h with h | h
    · exact Or.inr h
    · simp only [List.mem_cons, List.not_mem_nil, or_false] at h
      exact Or.inl h

/-- The assigned key has an entry after an assignment. -/
theorem objSet_mem_key (m : List (String × String)) (k v : String) :
    ∃ w, (k, w) ∈ objSet m k v := by
  unfold objSet
  split_ifs with hany
  · rw [List.any_eq_true] at hany
    obtain ⟨q, hq, hqk⟩ := hany
    refine ⟨v, ?_⟩
    rw [List.mem_map]
    refine ⟨q, hq, ?_⟩
    rw [if_pos (by exact of_decide_eq_true hqk)]
  · exact ⟨v, by simp⟩

/-- An assignment keeps an entry for every key that already had one. -/
theorem objSet_preserves_key (m : List (String × String)) (k v k0 : String)
    (h : ∃ w, (k0, w) ∈ m) : ∃ w, (k0, w) ∈ objSet m k v := by
  obtain ⟨w, hw⟩ := h
  unfold objSet
  split_ifs with hany
  · by_cases hk : k0 = k
    · subst hk
      refine ⟨v, ?_⟩
      rw [List.mem_map]
      exact ⟨(k0, w), hw, by rw [if_pos rfl]⟩
    · refine ⟨w, ?_⟩
      rw [List.mem_map]
      refine ⟨(k0, w), hw, ?_⟩
      rw [if_neg (by simpa using hk)]
  · exact ⟨w, by simp [hw]⟩

/-- An entry of a header fold comes from the accumulator or from an
allow-listed input header, with a lower-cased key and the original value. -/
theorem headerFold_mem (hs : List RawHeader) :
    ∀ (acc : List (String × String)) (p : String × String), p ∈ hs.foldl headerStep acc →
      p ∈ acc ∨ ∃ h ∈ hs, h.name ∈ headerNames ∧ p.1 = jsToLower h.name ∧ p.2 = h.value := by
  induction hs with
  | nil => exact fun acc p hp => Or.inl hp
  | cons h0 t ih =>
      intro acc p hp
      rw [List.foldl_cons] at hp
      rcases ih (headerStep acc h0) p hp with hacc | ⟨h, hh, hmem, hk, hv⟩
      · unfold headerStep at hacc
        split_ifs at hacc with hallow
        · rcases mem_objSet _ _ _ _ hacc with rfl | hacc
          · exact Or.inr ⟨h0, by simp, hallow, rfl, rfl⟩
          · exact Or.inl hacc
        · exact Or.inl hacc
      · exact Or.inr ⟨h, by simp [hh], hmem, hk, hv⟩

/-- A header fold keeps an entry for every key the accumulator already has. -/
theorem headerFold_preserves_key (hs : List RawHeader) :
    ∀ (acc : List (String × String)) (k : String), (∃ w, (k, w) ∈ acc) →
      ∃ w, (k, w) ∈ hs.foldl headerStep acc := by
  induction hs with
  | nil => exact fun acc k hk => hk
  | cons h0 t ih =>
      intro acc k hk
      rw [List.foldl_cons]
      apply ih
      unfold headerStep
      split_ifs with hallow
      · exact objSet_preserves_key _ _ _ _ hk
      · exact hk

/-- Every allow-listed input header ends up with an entry under its
lower-cased name. -/
theorem headerFold_complete (hs : List RawHeader) :
    ∀ (acc : List (String × String)), ∀ h ∈ hs, h.name ∈ headerNames →
      ∃ w, (jsToLower h.name, w) ∈ hs.foldl headerStep acc := by
  induction hs with
  | nil => exact fun acc h hh => absurd hh (List.not_mem_nil h)
  | cons h0 t ih =>
      intro acc h hh hallow
      rw [List.mem_cons] at hh
      rw [List.foldl_cons]
      rcases hh with rfl | hh
      · apply headerFold_preserves_key
        unfold headerStep
        rw [if_pos hallow]
        exact objSet_mem_key _ _ _
      · exact ih (headerStep acc h0) h hh hallow

/-- C4 counterexample: header-name matching is case-sensitive, not
case-insensitive as claimed.  The input header named FROM, which matches the
allow-listed name From only up to case, is dropped entirely, while the
exactly-spelled From is extracted. -/
theorem parseEmailHeaders_case_cex :
    parseEmailHeaders (some [⟨"FROM", "a@b.c"⟩]) = [] ∧
      parseEmailHeaders (some [⟨"From", "a@b.c"⟩]) = [("from", "a@b.c")] := by
  decide

/-- C4 (amended): header parsing extracts exactly the headers whose name
equals an allow-listed name case-sensitively (From, To, Subject, Date,
Message-ID, References, In-Reply-To); every key of the output is the
lower-cased header name, values are preserved, and headers outside the
allow-list never appear. -/
theorem parseEmailHeaders_allowlist (hs : List RawHeader) :
    (∀ p ∈ parseEmailHeaders (some hs),
        ∃ h ∈ hs, h.name ∈ headerNames ∧ p.1 = jsToLower h.name ∧ p.2 = h.value)
    ∧ (∀ h ∈ hs, h.name ∈ headerNames →
        ∃ w, (jsToLower h.name, w) ∈ parseEmailHeaders (some hs)) := by
  constructor
  · intro p hp
    rcases headerFold_mem hs [] p hp with h | h
    · exact absurd h (List.not_mem_nil p)
    · exact h
  · exact fun h hh hallow => headerFold_complete hs [] h hh hallow

/-- Witness for C4: on a concrete payload with one allow-listed and one
unlisted header, the allow-listed one is present under its lower-cased name. -/
theorem parseEmailHeaders_allowlist_witness :
    ∃ w, ("from", w) ∈ parseEmailHeaders (some [⟨"From", "a@b.c"⟩, ⟨"X-Spam", "yes"⟩]) :=
  (parseEmailHeaders_allowlist [⟨"From", "a@b.c"⟩, ⟨"X-Spam", "yes"⟩]).2
    ⟨"From", "a@b.c"⟩ (by decide) (by decide)

/-! ## Body extraction (src/api/utils.js, extractEmailBody)

A Gmail payload is a tree of MIME parts; a part optionally carries a mime
type, base64url body data, and nested parts.  extractEmailBody walks the tree
depth-first (parent before children), decoding every body it finds; the
base64Decode call is not guarded, so a decode failure (atob throwing) aborts
the whole extraction, which is modelled by Option. -/

/-- One MIME part of a Gmail payload: optional mimeType, optional body data
(part.body && part.body.data collapsed into one optional field), optional
nested parts. -/
inductive Part where
  | mk (mimeType : Option String) (bodyData : Option String) (parts : Option (List Part))

/-- The html/plain result record of extractEmailBody. -/
structure EmailBody where
  html : String
  plain : String
deriving DecidableEq

mutual

/-- processPayload from extractEmailBody on one part: decode the body data if
present (a failed decode propagates), route the decoded text by mime type,
then recurse into the nested parts. -/
def processPart (r : EmailBody) : Part → Option EmailBody
  | Part.mk mimeType bodyData parts =>
    let afterBody : Option EmailBody :=
      match bodyData with
      | none => some r
      | some data =>
        match base64Decode data with
        | none => none
        | some decoded =>
          some (if mimeType = some "text/html" then { r with html := decoded }
                else if mimeType = some "text/plain" then { r with plain := decoded }
                else r)
    match afterBody with
    | none => none
    | some r1 =>
      match parts with
      | none => some r1
      | some subparts => processParts r1 subparts

/-- processPayload over a list of sibling parts, left to right. -/
def processParts (r : EmailBody) : List Part → Option EmailBody
  | [] => some r
  | p :: ps =>
    match processPart r p with
    | none => none
    | some r1 => processParts r1 ps

end

/-- Replacement of every occurrence of one character by a string, as the
global-regex String.replace calls of extractEmailBody do. -/
def replaceAllCh (t : Char) (repl : List Char) : List Char → List Char
  | [] => []
  | c :: cs => (if c = t then repl else [c]) ++ replaceAllCh t repl cs

/-- The plain-to-HTML conversion of extractEmailBody, in source order:
ampersand, less-than, greater-than, then newline to a br tag. -/
def plainToHtml (s : String) : String :=
  String.mk (replaceAllCh '\n' ("<br>".data)
    (replaceAllCh '>' ("&gt;".data)
      (replaceAllCh '<' ("&lt;".data)
        (replaceAllCh '&' ("&amp;".data) s.data))))

/-- extractEmailBody from src/api/utils.js: walk the payload, then, if no
HTML was found and plain text was, synthesize html by escaping and
line-breaking the plain text. -/
def extractEmailBody (payload : Part) : Option EmailBody :=
  (processPart ⟨"", ""⟩ payload).map (fun r =>
    if r.html = "" ∧ r.plain ≠ "" then { r with html := plainToHtml r.plain } else r)

example :
    extractEmailBody (Part.mk (some "text/plain") (some "YSA8IGI") none) =
      some ⟨"a &lt; b", "a < b"⟩ := by decide
example : extractEmailBody (Part.mk (some "text/plain") (some "!!") none) = none := by decide

mutual

/-- Whether some part of the tree carries body data on which base64Decode
fails (atob would throw). -/
def partHasBadData : Part → Bool
  | Part.mk _ bodyData parts =>
    (match bodyData with
     | some d => (base64Decode d).isNone
     | none => false)
    || (match parts with
        | some subs => partsHaveBadData subs
        | none => false)

/-- Whether some part of a sibling list carries undecodable body data. -/
def partsHaveBadData : List Part → Bool
  | [] => false
  | p :: ps => partHasBadData p || partsHaveBadData ps

end

mutual

/-- A part tree containing undecodable body data makes the walk fail. -/
theorem processPart_bad (r : EmailBody) :
    ∀ p : Part, partHasBadData p = true → processPart r p = none
  | Part.mk mt bd parts, h => by
      unfold partHasBadData at h
      rw [Bool.or_eq_true] at h
      unfold processPart
      cases bd with
      | none =>
          dsimp only
          cases parts with
          | none => simp at h
          | some subs =>
              have hsub : partsHaveBadData subs = true := by simpa using h
              exact processParts_bad r subs hsub
      | some d =>
          cases hdec : base64Decode d with
          | none =>
              dsimp only
              rw [hdec]
          | some decoded =>
              dsimp only
              rw [hdec]
              dsimp only
              cases parts with
              | none => simp [hdec] at h
              | some subs =>
              have hsub : partsHaveBadData subs = true := by simpa [hdec] using h
              exact processParts_bad _ subs hsub

/-- A sibling list containing undecodable body data makes the walk fail. -/
theorem processParts_bad (r : EmailBody) :
    ∀ l : List Part, partsHaveBadData l = true → processParts r l = none
  | p :: ps, h => by
      unfold partsHaveBadData at h
      rw [Bool.or_eq_true] at h
      unfold processParts
      cases hp : processPart r p with
      | none => rfl
      | some r1 =>
          dsimp only
          rcases h with h | h
          · rw [processPart_bad r p h] at hp
            exact absurd hp (by simp)
          · exact processParts_bad r1 ps h

end

/-- C3 counterexample: a malformed base64url body is not treated as empty
content; extractEmailBody produces no html/plain result at all on a payload
whose only part has undecodable data (the atob error propagates). -/
theorem extractEmailBody_decode_cex :
    extractEmailBody (Part.mk (some "text/plain") (some "!!") none) = none := by decide

/-- C3 (amended): a decode failure anywhere in the payload propagates out of
extractEmailBody: whenever some part body fails base64url decoding, the whole
extraction fails instead of returning an html/plain record. -/
theorem extractEmailBody_propagates_failure (p : Part) (h : partHasBadData p = true) :
    extractEmailBody p = none := by
  unfold extractEmailBody
  rw [processPart_bad ⟨"", ""⟩ p h]
  rfl

/-- Witness for C3 (amended) at a concrete malformed payload. -/
theorem extractEmailBody_propagates_failure_witness :
    extractEmailBody (Part.mk none (some "@@@@") (some [])) = none :=
  extractEmailBody_propagates_failure (Part.mk none (some "@@@@") (some [])) (by decide)

mutual

/-- Whether some part of the tree would assign the html field: mime type
text/html together with present body data. -/
def partSetsHtml : Part → Bool
  | Part.mk mimeType bodyData parts =>
    ((mimeType == some "text/html") && bodyData.isSome)
    || (match parts with
        | some subs => partsSetHtml subs
        | none => false)

/-- Whether some part of a sibling list would assign the html field. -/
def partsSetHtml : List Part → Bool
  | [] => false
  | p :: ps => partSetsHtml p || partsSetHtml ps

end

mutual

/-- Without an html-setting part, the walk leaves the html field unchanged. -/
theorem processPart_html (r r1 : EmailBody) :
    ∀ p : Part, partSetsHtml p = false → processPart r p = some r1 → r1.html = r.html
  | Part.mk mt bd parts, h, hrun => by
      unfold partSetsHtml at h
      rw [Bool.or_eq_false_iff] at h
      obtain ⟨hbody, hparts⟩ := h
      unfold processPart at hrun
      cases bd with
      | none =>
          dsimp only at hrun
          cases parts with
          | none =>
              simp only [Option.some.injEq] at hrun
              rw [← hrun]
          | some subs =>
              exact processParts_html r r1 subs (by simpa using hparts) hrun
      | some d =>
          dsimp only at hrun
          cases hdec : base64Decode d with
          | none =>
              rw [hdec] at hrun
              exact absurd hrun (by simp)
          | some decoded =>
              rw [hdec] at hrun
              dsimp only at hrun
              have hmt : ¬mt = some "text/html" := by
                simp only [Bool.and_eq_false_iff, beq_eq_false_iff_ne, ne_eq,
                  Option.isSome_some, Bool.true_eq_false, or_false] at hbody
                exact hbody
              rw [if_neg hmt] at hrun
              have hmid :
                  (if mt = some "text/plain" then { r with plain := decoded } else r).html =
                    r.html := by
                split_ifs <;> rfl
              cases parts with
              | none =>
                  simp only [Option.some.injEq] at hrun
                  rw [← hrun]
                  exact hmid
              | some subs =>
                  rw [processParts_html _ r1 subs (by simpa using hparts) hrun]
                  exact hmid

/-- Without an html-setting part in a sibling list, the walk leaves the html
field unchanged. -/
theorem processParts_html (r r1 : EmailBody) :
    ∀ l : List Part, partsSetHtml l = false → processParts r l = some r1 → r1.html = r.html
  | [], _, hrun => by
      unfold processParts at hrun
      simp only [Option.some.injEq] at hrun
      rw [← hrun]
  | p :: ps, h, hrun => by
      unfold partsSetHtml at h
      rw [Bool.or_eq_false_iff] at h
      unfold processParts at hrun
      cases hp : processPart r p with
      | none =>
          rw [hp] at hrun
          exact absurd hrun (by simp)
      | some rmid =>
          rw [hp] at hrun
          dsimp only at hrun
          rw [processParts_html rmid r1 ps h.2 hrun]
          exact processPart_html r rmid p h.1 hp

end

/-- C8: if no text/html part sets html and the extracted plain text is
non-empty, the html field equals the plain text with ampersand, less-than,
greater-than and newline replaced by their escapes and a br tag, in source
order. -/
theorem extractEmailBody_synthesizes_html (p : Part) (r : EmailBody)
    (hno : partSetsHtml p = false) (hex : extractEmailBody p = some r)
    (hp : r.plain ≠ "") : r.html = plainToHtml r.plain := by
  unfold extractEmailBody at hex
  cases hpr : processPart ⟨"", ""⟩ p with
  | none =>
      rw [hpr] at hex
      exact absurd hex (by simp)
  | some r0 =>
      rw [hpr] at hex
      simp only [Option.map, Option.some.injEq] at hex
      have h0 : r0.html = "" := processPart_html ⟨"", ""⟩ r0 p hno hpr
      by_cases hpl : r0.plain = ""
      · rw [if_neg (by simp [hpl])] at hex
        rw [← hex] at hp
        exact absurd hpl hp
      · rw [if_pos ⟨h0, hpl⟩] at hex
        rw [← hex]

/-- Witness for C8: on a payload with a single text/plain part holding
"a < b", the synthesized html equals the escape of the plain text. -/
theorem extractEmailBody_synthesizes_html_witness :
    EmailBody.html ⟨"a &lt; b", "a < b"⟩ =
      plainToHtml (EmailBody.plain ⟨"a &lt; b", "a < b"⟩) :=
  extractEmailBody_synthesizes_html (Part.mk (some "text/plain") (some "YSA8IGI") none)
    ⟨"a &lt; b", "a < b"⟩ (by decide) (by decide) (by decide)

/-! ## API client (src/api/gmail.js)

The claims about the client concern the error classification of request, the
detail fan-out of listMessages, and the argument derivation of
replyToMessage.  Remote calls are modelled by oracles returning Except
values; an Except error models a rejected promise. -/

/-- Outcome of the non-ok branch of GmailAPI.request: status 401 throws the
AUTH_EXPIRED sentinel, everything else throws a generic error message. -/
inductive RequestFailure where
  | authExpired
  | apiError (message : String)
deriving DecidableEq

/-- An HTTP response as request observes it: the status, and the message at
error.error?.message of the parsed error body (none when the body is not JSON
or has no such field). -/
structure HttpResponse where
  status : Nat
  errorMessage : Option String
deriving DecidableEq

/-- response.ok of fetch: status in the 2xx range. -/
def responseOk (r : HttpResponse) : Bool := 200 ≤ r.status && r.status ≤ 299

/-- The JavaScript or-else on an optional string: a missing or empty (falsy)
value selects the fallback. -/
def jsOrElse (o : Option String) (d : String) : String :=
  match o with
  | some s => if s = "" then d else s
  | none => d

/-- Error classification of GmailAPI.request (lines 49 to 57 of
src/api/gmail.js): ok responses raise nothing; status 401 raises the
distinguished AUTH_EXPIRED condition before the error body is consulted;
any other non-2xx status raises the provider message or the generic
API Error text. -/
def requestFailureOf (r : HttpResponse) : Option RequestFailure :=
  if responseOk r then none
  else if r.status = 401 then some RequestFailure.authExpired
  else some (RequestFailure.apiError (jsOrElse r.errorMessage ("API Error: " ++ toString r.status)))

/-- C2: a 401 response is classified as the distinguished auth-expired
condition regardless of the body, and every other non-2xx response is a
generic error carrying the provider message when one is present (non-empty)
and the text API Error: status otherwise. -/
theorem request_error_taxonomy (r : HttpResponse) :
    (r.status = 401 → requestFailureOf r = some RequestFailure.authExpired)
    ∧ (responseOk r = false → r.status ≠ 401 →
        requestFailureOf r =
          some (RequestFailure.apiError
            (jsOrElse r.errorMessage ("API Error: " ++ toString r.status)))) := by
  constructor
  · intro h401
    unfold requestFailureOf
    rw [if_neg, if_pos h401]
    unfold responseOk
    rw [h401]
    simp
  · intro hok hne
    unfold requestFailureOf
    rw [if_neg (by simp [hok]), if_neg hne]

/-- Witness for C2: a 401 with a would-be message is still auth-expired; a
500 without a body message gets the generic text. -/
theorem request_error_taxonomy_witness :
    requestFailureOf ⟨401, some "ignored"⟩ = some RequestFailure.authExpired ∧
      requestFailureOf ⟨500, none⟩ = some (RequestFailure.apiError "API Error: 500") :=
  ⟨(request_error_taxonomy ⟨401, some "ignored"⟩).1 rfl,
   (request_error_taxonomy ⟨500, none⟩).2 (by decide) (by decide)⟩

/-- A reference to one message as returned by the list endpoint. -/
structure MsgRef where
  id : String
deriving DecidableEq

/-- The body of a list response: optional array of message references and the
pagination fields. -/
structure ListResponse where
  messages : Option (List MsgRef)
  nextPageToken : Option String
  resultSizeEstimate : Option Nat

/-- The aggregate result of listMessages over detail results of type mu. -/
structure MessagePage (μ : Type) where
  messages : List μ
  nextPageToken : Option String
  resultSizeEstimate : Option Nat

/-- Promise.all over already-issued operations: the first rejection rejects
the aggregate, otherwise all results are collected in the order of the input
list. -/
def promiseAll {ε α : Type} : List (Except ε α) → Except ε (List α)
  | [] => Except.ok []
  | Except.ok a :: rest => (promiseAll rest).map (fun l => a :: l)
  | Except.error e :: _ => Except.error e

/-- The detail fan-out of listMessages (lines 117 to 126 of
src/api/gmail.js): one getMessage call in metadata format per listed id,
issued via map and joined with Promise.all, then repackaged with the
pagination fields. -/
def listMessagesDetails {μ : Type} (response : ListResponse)
    (getMessage : String → String → Except String μ) : Except String (MessagePage μ) :=
  let messages := response.messages.getD []
  (promiseAll (messages.map (fun m => getMessage m.id "metadata"))).map
    (fun detailed => ⟨detailed, response.nextPageToken, response.resultSizeEstimate⟩)

/-- Promise.all of succeeding operations collects the image in order. -/
theorem promiseAll_map_ok {ε α β : Type} (xs : List β) (g : β → Except ε α) (f : β → α)
    (h : ∀ x ∈ xs, g x = Except.ok (f x)) : promiseAll (xs.map g) = Except.ok (xs.map f) := by
  induction xs with
  | nil => rfl
  | cons x t ih =>
      rw [List.map_cons, List.map_cons]
      rw [show g x = Except.ok (f x) from h x (by simp)]
      unfold promiseAll
      rw [ih (fun y hy => h y (by simp [hy]))]
      rfl

/-- Promise.all with a rejecting member rejects. -/
theorem promiseAll_map_error {ε α β : Type} (xs : List β) (g : β → Except ε α) (x : β)
    (hx : x ∈ xs) (he : ∃ e, g x = Except.error e) :
    ∃ e, promiseAll (xs.map g) = Except.error e := by
  induction xs with
  | nil => exact absurd hx (List.not_mem_nil x)
  | cons y t ih =>
      rw [List.map_cons]
      cases hy : g y with
      | error e => exact ⟨e, rfl⟩
      | ok a =>
          rw [List.mem_cons] at hx
          rcases hx with rfl | hx
          · obtain ⟨e, he⟩ := he
            rw [hy] at he
            exact absurd he (by simp)
          · obtain ⟨e, hall⟩ := ih hx
            refine ⟨e, ?_⟩
            unfold promiseAll
            rw [hall]
            rfl

/-- C1: the fan-out issues one metadata detail fetch per listed id; when all
of them succeed the aggregate result lists the details in the order of the
original id list together with the pagination fields, and when the fetch of
any listed id fails the whole call fails, returning none of the messages. -/
theorem listMessages_fanout {μ : Type} (response : ListResponse)
    (getMessage : String → String → Except String μ) :
    (∀ f : String → μ,
        (∀ m ∈ response.messages.getD [], getMessage m.id "metadata" = Except.ok (f m.id)) →
        listMessagesDetails response getMessage =
          Except.ok ⟨(response.messages.getD []).map (fun m => f m.id),
            response.nextPageToken, response.resultSizeEstimate⟩)
    ∧ (∀ m ∈ response.messages.getD [],
        (∃ e, getMessage m.id "metadata" = Except.error e) →
        ∃ e, listMessagesDetails response getMessage = Except.error e) := by
  constructor
  · intro f hall
    unfold listMessagesDetails
    dsimp only
    rw [promiseAll_map_ok (response.messages.getD []) _ (fun m => f m.id) hall]
    rfl
  · intro m hm he
    obtain ⟨e, hall⟩ :=
      promiseAll_map_error (response.messages.getD []) (fun m => getMessage m.id "metadata") m hm he
    refine ⟨e, ?_⟩
    unfold listMessagesDetails
    dsimp only
    rw [hall]
    rfl

/-- Witness for C1: with three listed ids and a detail oracle failing on the
second, the aggregate call fails; with an all-succeeding oracle the three
details come back in list order. -/
theorem listMessages_fanout_witness :
    (∃ e, listMessagesDetails ⟨some [⟨"a"⟩, ⟨"b"⟩, ⟨"c"⟩], none, none⟩
        (fun i _ => if i = "b" then Except.error "boom" else Except.ok i) = Except.error e)
    ∧ listMessagesDetails ⟨some [⟨"a"⟩, ⟨"b"⟩, ⟨"c"⟩], none, none⟩
        (fun i _ => Except.ok i) = Except.ok ⟨["a", "b", "c"], none, none⟩ :=
  ⟨(listMessages_fanout ⟨some [⟨"a"⟩, ⟨"b"⟩, ⟨"c"⟩], none, none⟩ _).2 ⟨"b"⟩ (by decide)
      ⟨"boom", rfl⟩,
   (listMessages_fanout ⟨some [⟨"a"⟩, ⟨"b"⟩, ⟨"c"⟩], none, none⟩ _).1 (fun i => i)
      (fun m _ => rfl)⟩

/-! ## replyToMessage (src/api/gmail.js, lines 195 to 216)

replyToMessage fetches the original message in full format and derives the
sendMessage arguments from its parsed headers and thread id.  The parsed
message is modelled by its threadId and its headers object (the output of
parseEmailHeaders); property access on that object is an association-list
lookup returning none for a missing key, and template interpolation of a
missing value produces the text undefined, as in JavaScript. -/

/-- Property access on a headers object. -/
def jsGet (m : List (String × String)) (k : String) : Option String :=
  (m.find? (fun p => p.1 = k)).map Prod.snd

/-- JavaScript truthiness of an optional string: present and non-empty. -/
def jsTruthy (o : Option String) : Bool :=
  match o with
  | some s => !(s = "")
  | none => false

/-- Template interpolation of an optional string: undefined prints as the
word undefined. -/
def jsInterp (o : Option String) : String :=
  match o with
  | some s => s
  | none => "undefined"

/-- The message fields replyToMessage reads from the full-format fetch. -/
structure ParsedMessage where
  threadId : Option String
  headers : List (String × String)

/-- The argument record handed to sendMessage; toAddr models the argument
named to in the source. -/
structure SendOptions where
  toAddr : Option String
  subject : String
  body : String
  threadId : Option String
  inReplyTo : Option String
  references : Option String
deriving DecidableEq

/-- startsWith on strings, modelled as a character-list prefix test. -/
def strStartsWith (s pre : String) : Bool := pre.data.isPrefixOf s.data

/-- The subject derivation of replyToMessage: keep a subject already starting
with Re:, else prefix Re: to the subject or to the empty string when the
original has no subject. -/
def replySubject (subj : Option String) : String :=
  match subj with
  | some s => if strStartsWith s "Re:" then s else "Re: " ++ s
  | none => "Re: " ++ ""

/-- replyToMessage from src/api/gmail.js: fetch the original in full format,
then send with recipient the original From header, the derived subject, the
original Message-ID as In-Reply-To, the original References extended by the
Message-ID (or the Message-ID alone when References is absent or empty), and
the original threadId. -/
def replyToMessage (getMessage : String → String → Except String ParsedMessage)
    (messageId : String) (body : String) : Except String SendOptions :=
  (getMessage messageId "full").map (fun original =>
    { toAddr := jsGet original.headers "from"
      subject := replySubject (jsGet original.headers "subject")
      body := body
      threadId := original.threadId
      inReplyTo := jsGet original.headers "message-id"
      references :=
        if jsTruthy (jsGet original.headers "references") then
          some ((jsGet original.headers "references").getD "" ++ " " ++
            jsInterp (jsGet original.headers "message-id"))
        else jsGet original.headers "message-id" })

/-- C7: for a reply to a fetched original with a subject and a Message-ID,
the sent message goes to the original From value, carries Re: prefixed to the
subject unless already present, sets In-Reply-To to the original Message-ID,
sets References to the original References with the Message-ID appended (or
the Message-ID alone without prior References), and continues the original
thread. -/
theorem replyToMessage_fields (getMessage : String → String → Except String ParsedMessage)
    (messageId : String) (body : String) (original : ParsedMessage) (subj mid : String)
    (hfetch : getMessage messageId "full" = Except.ok original)
    (hsubj : jsGet original.headers "subject" = some subj)
    (hmid : jsGet original.headers "message-id" = some mid) :
    ∃ opts, replyToMessage getMessage messageId body = Except.ok opts
      ∧ opts.toAddr = jsGet original.headers "from"
      ∧ opts.subject = (if strStartsWith subj "Re:" then subj else "Re: " ++ subj)
      ∧ opts.body = body
      ∧ opts.inReplyTo = some mid
      ∧ (∀ refs, jsGet original.headers "references" = some refs → refs ≠ "" →
          opts.references = some (refs ++ " " ++ mid))
      ∧ (jsGet original.headers "references" = none → opts.references = some mid)
      ∧ opts.threadId = original.threadId := by
  have hok : replyToMessage getMessage messageId body = Except.ok
      { toAddr := jsGet original.headers "from"
        subject := replySubject (jsGet original.headers "subject")
        body := body
        threadId := original.threadId
        inReplyTo := jsGet original.headers "message-id"
        references :=
          if jsTruthy (jsGet original.headers "references") then
            some ((jsGet original.headers "references").getD "" ++ " " ++
              jsInterp (jsGet original.headers "message-id"))
          else jsGet original.headers "message-id" } := by
    unfold replyToMessage
    rw [hfetch]
    rfl
  refine ⟨_, hok, rfl, ?_, rfl, ?_, ?_, ?_, rfl⟩
  · show replySubject (jsGet original.headers "subject") = _
    rw [hsubj]
    rfl
  · show jsGet original.headers "message-id" = some mid
    exact hmid
  · intro refs hrefs hne
    show (if jsTruthy (jsGet original.headers "references") then _ else _) = _
    rw [hrefs, hmid]
    rw [if_pos (by simp [jsTruthy, hne])]
    rfl
  · intro hrefs
    show (if jsTruthy (jsGet original.headers "references") then _ else _) = _
    rw [hrefs]
    rw [if_neg (by simp [jsTruthy])]
    exact hmid

/-- Witness for C7 at a concrete original message. -/
theorem replyToMessage_fields_witness :
    ∃ opts,
      replyToMessage
          (fun i f =>
            if i = "m7" ∧ f = "full" then
              Except.ok ⟨some "t7",
                [("from", "Jane <jane@x.com>"), ("subject", "Hello"),
                 ("message-id", "<mid1@x>"), ("references", "<r1@x>")]⟩
            else Except.error "not found")
          "m7" "reply body" = Except.ok opts
        ∧ opts.toAddr = some "Jane <jane@x.com>"
        ∧ opts.subject = "Re: Hello"
        ∧ opts.references = some "<r1@x> <mid1@x>"
        ∧ opts.threadId = some "t7" := by
  obtain ⟨opts, hok, hto, hsubj, _, _, hrefs, _, hthread⟩ :=
    replyToMessage_fields
      (fun i f =>
        if i = "m7" ∧ f = "full" then
          Except.ok ⟨some "t7",
            [("from", "Jane <jane@x.com>"), ("subject", "Hello"),
             ("message-id", "<mid1@x>"), ("references", "<r1@x>")]⟩
        else Except.error "not found")
      "m7" "reply body"
      ⟨some "t7",
        [("from", "Jane <jane@x.com>"), ("subject", "Hello"),
         ("message-id", "<mid1@x>"), ("references", "<r1@x>")]⟩
      "Hello" "<mid1@x>" rfl (by decide) (by decide)
  refine ⟨opts, hok, ?_, ?_, ?_, hthread⟩
  · rw [hto]
    decide
  · rw [hsubj]
    decide
  · rw [hrefs "<r1@x>" (by decide) (by decide)]
    decide

/-! ## Background service worker (the unnamed source file)

The poller state is the set lastKnownMessageIds.  One cycle of
checkForNewEmails is modelled as a pure function of the silent-auth result,
the notificationsEnabled setting, the result of the unread fetch (an Except
error models a thrown listMessages), and the previous set; it returns the
notification ids raised and the new set.  signOut is modelled as a function
of the cached-token lookup and the mutable state it touches. -/

/-- A fetched message as the poller consumes it (only the id matters for the
diff and the notification key). -/
structure FetchedMessage where
  id : String
deriving DecidableEq

/-- Outcome of one poll cycle: notification ids raised, in order, and the
value of lastKnownMessageIds afterwards. -/
structure PollOutcome where
  notifications : List String
  lastKnownMessageIds : Finset String
deriving DecidableEq

/-- The deterministic notification id for a message id: the exmail-new-
notification prefix applied to the id. -/
def notificationIdFor (id : String) : String := "exmail-new-" ++ id

/-- checkForNewEmails from the background worker: return early (without
touching the set) when silent auth yields no token, when notifications are
disabled, or when the fetch throws; otherwise notify once per fetched message
whose id is not in the previous set, skipping all notifications when the
previous set is empty, and replace the set with the current ids. -/
def checkForNewEmails (token : Option String) (notificationsEnabled : Option Bool)
    (fetchResult : Except String (List FetchedMessage)) (lastKnown : Finset String) :
    PollOutcome :=
  match token with
  | none => ⟨[], lastKnown⟩
  | some _ =>
    if notificationsEnabled = some false then ⟨[], lastKnown⟩
    else
      match fetchResult with
      | Except.error _ => ⟨[], lastKnown⟩
      | Except.ok messages =>
        let currentIds : Finset String := (messages.map (fun m => m.id)).toFinset
        let notifications :=
          if 0 < lastKnown.card then
            (messages.filter (fun m => decide (m.id ∉ lastKnown))).map
              (fun m => notificationIdFor m.id)
          else []
        ⟨notifications, currentIds⟩

/-- C5: on a successful cycle the last-seen set is always replaced by the
current ids; a cycle starting from an empty set raises no notifications;
a cycle starting from a non-empty set raises exactly one notification per
fetched message whose id is not in the set, keyed exmail-new- plus the
message id, in fetch order. -/
theorem checkForNewEmails_cycle (tok : String) (enabled : Option Bool)
    (messages : List FetchedMessage) (lastKnown : Finset String)
    (henabled : enabled ≠ some false) :
    (checkForNewEmails (some tok) enabled (Except.ok messages) lastKnown).lastKnownMessageIds =
        (messages.map (fun m => m.id)).toFinset
    ∧ (lastKnown = ∅ →
        (checkForNewEmails (some tok) enabled (Except.ok messages) lastKnown).notifications = [])
    ∧ (lastKnown ≠ ∅ →
        (checkForNewEmails (some tok) enabled (Except.ok messages) lastKnown).notifications =
          (messages.filter (fun m => decide (m.id ∉ lastKnown))).map
            (fun m => notificationIdFor m.id)) := by
  unfold checkForNewEmails
  rw [if_neg henabled]
  dsimp only
  refine ⟨rfl, ?_, ?_⟩
  · intro hempty
    rw [if_neg (by simp [hempty])]
  · intro hne
    rw [if_pos (by simp [Finset.card_pos, Finset.nonempty_iff_ne_empty, hne])]

/-- Witness for C5: a baseline cycle over two messages raises nothing and
seeds the set; the following cycle with one new message raises exactly its
notification. -/
theorem checkForNewEmails_cycle_witness :
    (checkForNewEmails (some "tok") none (Except.ok [⟨"m1"⟩, ⟨"m2"⟩]) ∅).notifications = []
    ∧ (checkForNewEmails (some "tok") none
        (Except.ok [⟨"m1"⟩, ⟨"m2"⟩]) ∅).lastKnownMessageIds = {"m1", "m2"}
    ∧ (checkForNewEmails (some "tok") none
        (Except.ok [⟨"m1"⟩, ⟨"m2"⟩, ⟨"m3"⟩]) {"m1", "m2"}).notifications = ["exmail-new-m3"] := by
  obtain ⟨hset1, hbase, _⟩ :=
    checkForNewEmails_cycle "tok" none [⟨"m1"⟩, ⟨"m2"⟩] ∅ (by decide)
  obtain ⟨_, _, hnew⟩ :=
    checkForNewEmails_cycle "tok" none [⟨"m1"⟩, ⟨"m2"⟩, ⟨"m3"⟩] {"m1", "m2"} (by decide)
  refine ⟨hbase rfl, ?_, ?_⟩
  · rw [hset1]
    decide
  · rw [hnew (by decide)]
    decide

/-- C10: a cycle that exits early, because silent auth yields no token, or
notifications are disabled, or the unread fetch throws, raises nothing and
leaves the last-seen set unchanged. -/
theorem checkForNewEmails_early_exit (token : Option String) (enabled : Option Bool)
    (fetchResult : Except String (List FetchedMessage)) (lastKnown : Finset String)
    (h : token = none ∨ enabled = some false ∨ ∃ e, fetchResult = Except.error e) :
    checkForNewEmails token enabled fetchResult lastKnown = ⟨[], lastKnown⟩ := by
  rcases h with rfl | rfl | ⟨e, rfl⟩
  · rfl
  · cases token with
    | none => rfl
    | some t =>
        unfold checkForNewEmails
        rw [if_pos rfl]
  · cases token with
    | none => rfl
    | some t =>
        unfold checkForNewEmails
        by_cases henabled : enabled = some false
        · rw [if_pos henabled]
        · rw [if_neg henabled]

/-- Witness for C10: a cycle without a token leaves a non-empty set alone. -/
theorem checkForNewEmails_early_exit_witness :
    checkForNewEmails none none (Except.ok [⟨"m9"⟩]) {"m1"} = ⟨[], {"m1"}⟩ :=
  checkForNewEmails_early_exit none none (Except.ok [⟨"m9"⟩]) {"m1"} (Or.inl rfl)

/-- The worker state signOut touches: the API client access token and the
last-seen id set. -/
structure WorkerState where
  accessToken : Option String
  lastKnownMessageIds : Finset String
deriving DecidableEq

/-- signOut from the background worker: when the token lookup yields a cached
token, revoke it, clear the client token and clear lastKnownMessageIds; when
there is no cached token, only clear the client token and resolve, leaving
lastKnownMessageIds untouched. -/
def signOut (cachedToken : Option String) (st : WorkerState) : WorkerState :=
  match cachedToken with
  | some _ => ⟨none, ∅⟩
  | none => ⟨none, st.lastKnownMessageIds⟩

/-- C9 counterexample: with no cached credential but a non-empty last-seen
set, signOut clears the token but leaves the last-seen set non-empty, against
the claim that it is empty after every signOut. -/
theorem signOut_cex :
    (signOut none ⟨some "stale", {"m1"}⟩).lastKnownMessageIds = {"m1"} ∧
      ({"m1"} : Finset String) ≠ ∅ := by
  decide

/-- C9 (amended): signOut always clears the access token; it clears the
last-seen id set when a cached credential exists, and leaves the set
unchanged when none does. -/
theorem signOut_state (cachedToken : Option String) (st : WorkerState) :
    (signOut cachedToken st).accessToken = none
    ∧ (∀ t, cachedToken = some t → (signOut cachedToken st).lastKnownMessageIds = ∅)
    ∧ (cachedToken = none →
        (signOut cachedToken st).lastKnownMessageIds = st.lastKnownMessageIds) := by
  cases cachedToken with
  | none => exact ⟨rfl, fun t ht => by simp at ht, fun _ => rfl⟩
  | some t0 => exact ⟨rfl, fun t _ => rfl, fun h => by simp at h⟩

/-- Witness for C9 (amended): with a cached credential both the token and the
set are cleared; without one the token is cleared and the set survives. -/
theorem signOut_state_witness :
    (signOut (some "tok") ⟨some "tok", {"m1"}⟩).accessToken = none
    ∧ (signOut (some "tok") ⟨some "tok", {"m1"}⟩).lastKnownMessageIds = ∅
    ∧ (signOut none ⟨none, {"m2"}⟩).lastKnownMessageIds =
        (⟨none, {"m2"}⟩ : WorkerState).lastKnownMessageIds :=
  ⟨(signOut_state (some "tok") ⟨some "tok", {"m1"}⟩).1,
   (signOut_state (some "tok") ⟨some "tok", {"m1"}⟩).2.1 "tok" rfl,
   (signOut_state none ⟨none, {"m2"}⟩).2.2 rfl⟩

end ExMail
